import Mathlib

/-!
Verification development for the steamreviews repository: a shallow
embedding, in Lean, of the incremental-fetch, persistence and enrichment
control flow of the Steam-review / YouTube-feedback pipeline, together
with theorems settling the specified properties against it.

Each definition is translated from a named function of the source tree
(file and function given in its doc comment).  Timestamps are Unix
seconds, modelled as `Nat` (all timestamps handled by the code are
non-negative; where Python could produce a negative intermediate value,
the surrounding `max` with a non-negative value makes truncated `Nat`
subtraction agree with the Python result, as noted at the definition).
-/

namespace SteamReviews

/-- A Steam review as seen by the fetch loop: its natural id
(`recommendationid`) and its source timestamp (`timestamp_created`).
Other fields of the review are opaque pass-through data for the
fetch-cycle logic and are omitted here. -/
structure SteamReview where
  rid : String
  ts : Nat
deriving Repr, DecidableEq

/-- One page (one `batch`) of the inner loop of
`SteamAPI.fetch_reviews` (src/src/steam_client.py, lines 88-113):
walk the page in delivered order, keeping `current_batch_latest_ts`
as the running maximum of every timestamp *seen* (the timestamp of an
item is folded into the maximum before the cutoff test); if
`after_timestamp` is nonzero (Python truthiness of `after_timestamp`)
and the item's timestamp is `<= after_timestamp`, stop, processing no
further item of this page.  Returns the processed (kept) reviews, the
maximum timestamp seen, and the stop flag. -/
def processBatch (after : Nat) : List SteamReview → List SteamReview × Nat × Bool
  | [] => ([], 0, false)
  | r :: rest =>
    if after ≠ 0 ∧ r.ts ≤ after then
      ([], r.ts, true)
    else
      let rec_result := processBatch after rest
      (r :: rec_result.1, max r.ts rec_result.2.1, rec_result.2.2)

/-- The page loop of `SteamAPI.fetch_reviews` (src/src/steam_client.py):
pages are consumed in order; an empty page ends the loop; a page whose
cutoff fired ends the loop after its processed prefix is appended.  The
input list of pages stands for the successive non-error responses of the
Steam API (exhaustion of the list models the missing-next-cursor and
error-break exits, which end the loop the same way).  Returns the
fetched reviews and `latest_timestamp_in_batch`, the maximum timestamp
seen over all processed pages. -/
def fetchReviewsLoop (after : Nat) : List (List SteamReview) → List SteamReview × Nat
  | [] => ([], 0)
  | batch :: rest =>
    if batch = [] then ([], 0)
    else
      let p := processBatch after batch
      if p.2.2 then (p.1, p.2.1)
      else
        let q := fetchReviewsLoop after rest
        (p.1 ++ q.1, max p.2.1 q.2)

/-- `SteamAPI.fetch_reviews appid language after_timestamp` reduced to
the data the caller uses: the list of new reviews and the highest
timestamp seen in the run (the returned cursor is dropped, as
`run_fetcher` drops it). -/
def fetch_reviews (after : Nat) (pages : List (List SteamReview)) : List SteamReview × Nat :=
  fetchReviewsLoop after pages

/-- Python `not text or not text.strip()`: the string is empty or
consists of whitespace only. -/
def isBlank (s : String) : Bool :=
  s.data.all Char.isWhitespace

/-- Python `text.startswith("[REFUSAL")`, the refusal-string test used
throughout the enrichment pipeline. -/
def isRefusalString (s : String) : Bool :=
  "[REFUSAL".data.isPrefixOf s.data

/-- Outcome of one per-app fetch cycle of `run_fetcher`
(src/src/main_fetcher.py): the new value of `last_fetched_timestamp`
and the reviews handed to `crud.add_reviews_bulk`. -/
structure AppCycleResult where
  newLast : Nat
  persisted : List SteamReview
deriving Repr, DecidableEq

/-- One iteration of the per-app loop of `run_fetcher`
(src/src/main_fetcher.py, lines 44-114): `last_fetch` is
`app.last_fetched_timestamp or 0`; fetch with `after_timestamp =
last_fetch`; if no new reviews, leave the mark untouched; otherwise
bulk-insert the reviews and advance the mark to `highest_ts_in_run`
only when it exceeds `last_fetch`. -/
def run_fetcher_app_cycle (last_fetched_timestamp : Option Nat)
    (pages : List (List SteamReview)) : AppCycleResult :=
  let last_fetch := last_fetched_timestamp.getD 0
  let fr := fetch_reviews last_fetch pages
  if fr.1 = [] then ⟨last_fetch, []⟩
  else if fr.2 > last_fetch then ⟨fr.2, fr.1⟩
  else ⟨last_fetch, fr.1⟩

/-! ## YouTube channel fetch cycle (scripts/youtube_fetcher.py) -/

/-- A video id delivered by `client.get_channel_videos`, together with
the metadata the worker later fetches for it: `meta = none` models a
failed `get_video_metadata` call, `meta = some ts` a successful call
whose parsed `uploadDate` is the Unix timestamp `ts` (an unparseable or
missing upload date leaves `upload_date_ts = 0` in the code, modelled
as `some 0`). -/
structure VideoInfo where
  vid : String
  meta : Option Nat
deriving Repr, DecidableEq

/-- A stored row of the `youtube_videos` table as far as the fetch
cycle reads it: the video id and its upload timestamp. -/
structure StoredVideo where
  vid : String
  ts : Nat
deriving Repr, DecidableEq

/-- `crud.get_latest_video_upload_timestamp_for_channel` followed by
`or 0` (scripts/youtube_fetcher.py line 170): the maximum upload
timestamp among the channel's stored videos, `0` when there is none. -/
def dbMaxUploadTs (stored : List StoredVideo) : Nat :=
  (stored.map (·.ts)).foldl max 0

/-- `_process_single_video` (scripts/youtube_fetcher.py, lines 53-155)
restricted to what `process_channel` reads back from it: whether a new
video row was added, and the `upload_timestamp` entry of its result
dict.  An already-stored video returns with `new_video_added = False`;
a metadata failure likewise; a video whose upload timestamp is
`<= effective_cutoff_ts` is skipped; otherwise the video is added
(transcript handling does not change these two fields). -/
def process_single_video (stored : List StoredVideo) (cutoff : Nat)
    (v : VideoInfo) : Bool × Nat :=
  if stored.any (fun s => s.vid = v.vid) then (false, 0)
  else
    match v.meta with
    | none => (false, 0)
    | some ts => if ts ≤ cutoff then (false, ts) else (true, ts)

/-- Outcome of one channel cycle of `process_channel`
(scripts/youtube_fetcher.py): the new `last_checked_timestamp` and the
upload timestamps of the videos actually added this run. -/
structure ChannelCycleResult where
  newLastChecked : Nat
  addedTs : List Nat
deriving Repr, DecidableEq

/-- The body of the per-video loop of `process_channel` for a
delivered video list: the upload timestamps collected from the workers
whose result had `new_video_added = True` (the inputs to
`highest_ts_of_newly_added_video_this_run`). -/
def addedVideoTimestamps (stored : List StoredVideo) (cutoff : Nat)
    (vids : List VideoInfo) : List Nat :=
  vids.filterMap (fun v =>
    let r := process_single_video stored cutoff v
    if r.1 then some r.2 else none)

/-- `process_channel` (scripts/youtube_fetcher.py, lines 158-258),
whose state reads/writes are made explicit.  `fetch = none` models the
missing-handle and failed `get_channel_videos` cases, `some []` the
empty video list: all three advance the mark to `now`.  Otherwise the
effective cutoff is `max(latest stored upload timestamp, now -
lookback)` (note: the Python value `now - lookback` can only be
negative when `now < lookback`, in which case the `max` with the
non-negative DB maximum coincides with the truncated `Nat`
subtraction); each delivered video runs `_process_single_video`; the
mark is set to the highest upload timestamp among videos actually
added, but only when that exceeds the stored DB maximum — otherwise it
is left at its previous value. -/
def process_channel_cycle (last_checked : Nat) (stored : List StoredVideo)
    (now lookback : Nat) (fetch : Option (List VideoInfo)) : ChannelCycleResult :=
  let db_max := dbMaxUploadTs stored
  let cutoff := max db_max (now - lookback)
  match fetch with
  | none => ⟨now, []⟩
  | some [] => ⟨now, []⟩
  | some vids =>
    let added := addedVideoTimestamps stored cutoff vids
    let highest := added.foldl max 0
    if highest > db_max then ⟨highest, added⟩ else ⟨last_checked, added⟩

/-! ## The idempotent bulk persister (src/src/database/crud.py) -/

/-- A row handed to `crud.add_reviews_bulk`, keyed by the natural id
`recommendationid`, restricted to the fields the persistence claims
read.  `original_language` is a `NOT NULL` column of the `reviews`
table (src/src/database/models.py): `none` models a row missing that
required field, the genuine constraint violation of the spec. -/
structure ReviewRow where
  recommendationid : String
  original_language : Option String
  original_review_text : String
  timestamp_created : Nat
deriving Repr, DecidableEq

/-- Whether inserting this row violates a column constraint: the
`NOT NULL` of `original_language`. -/
def rowViolatesConstraint (r : ReviewRow) : Bool :=
  r.original_language.isNone

/-- The single `INSERT ... ON CONFLICT (recommendationid) DO NOTHING`
statement issued by `add_reviews_bulk` (src/src/database/crud.py,
lines 79-84): rows are inserted in order; a row whose natural id is
already present (in the table, or inserted earlier in the same
statement) is a no-op; a row violating a column constraint makes the
whole statement fail, leaving the table as it was (the transaction is
rolled back).  `.error` carries the database error message. -/
def insertOnConflictDoNothing (table : List ReviewRow) :
    List ReviewRow → Except String (List ReviewRow)
  | [] => .ok table
  | r :: rest =>
    if rowViolatesConstraint r then
      .error "IntegrityError: null value in required column"
    else if table.any (fun s => s.recommendationid = r.recommendationid) then
      insertOnConflictDoNothing table rest
    else
      insertOnConflictDoNothing (table ++ [r]) rest

/-- Result of `crud.add_reviews_bulk`: the table afterwards and
whether an exception propagated to the caller. -/
structure BulkResult where
  table : List ReviewRow
  raised : Bool
deriving Repr, DecidableEq

/-- `crud.add_reviews_bulk` (src/src/database/crud.py, lines 72-89):
an empty batch returns at once; otherwise the conflict-ignoring bulk
insert runs inside `try`, and the `except Exception` arm catches every
database error, rolls the transaction back (table unchanged), logs,
and returns normally — no exception is ever re-raised. -/
def add_reviews_bulk (table : List ReviewRow) (reviews_data : List ReviewRow) : BulkResult :=
  if reviews_data = [] then ⟨table, false⟩
  else
    match insertOnConflictDoNothing table reviews_data with
    | .ok t => ⟨t, false⟩
    | .error _ => ⟨table, false⟩

/-- A stored row of the `youtube_videos` table as created by
`crud_youtube.add_video`: natural id, owning channel, title and the
two status columns the enrichment pipeline mutates. -/
structure VideoRow where
  id : String
  channel_id : String
  title : Option String
  transcript_status : String
  analysis_status : String
deriving Repr, DecidableEq

/-- `crud_youtube.add_video` (src/src/database/crud_youtube.py, lines
195-218): construct the row with both statuses `'pending'` and insert
it; a duplicate natural id raises `IntegrityError`, which is caught,
rolled back, and answered by returning the *existing* row unchanged —
a no-op, never an update.  Returns the table afterwards and the row
handed back to the caller. -/
def add_video (table : List VideoRow) (video_id channel_id : String)
    (title : Option String) : List VideoRow × Option VideoRow :=
  match table.find? (fun v => v.id = video_id) with
  | some existing => (table, some existing)
  | none =>
    let row : VideoRow :=
      ⟨video_id, channel_id, title, "pending", "pending"⟩
    (table ++ [row], some row)

/-! ## Translation enrichment
(src/src/processing/translator.py, src/src/run_translator.py) -/

/-- Outcome of the one external LLM call a worker may make:
`returns s` models `call_openai_api` returning (`s = none` is Python
`None`, i.e. a failed call or a response without text), `raises`
models the call raising out of the client (the translator catches
it). -/
inductive ApiCallResult where
  | returns (s : Option String)
  | raises (msg : String)
deriving Repr, DecidableEq

/-- The in-memory translation cache of a `Translator`, an association
list from `"lang:text"` keys to cached translations. -/
abbrev CacheMap := List (String × String)

/-- Lookup in the translation cache (`cache_key in self.translation_cache`). -/
def cacheLookup (cache : CacheMap) (key : String) : Option String :=
  (cache.find? (fun e => e.1 = key)).map (·.2)

/-- What `Translator.translate_review_text` produces: its return value
(`none` is Python `None`, failure), whether the external API was
invoked, and the cache afterwards. -/
structure TranslateOutcome where
  result : Option String
  apiCalled : Bool
  cacheAfter : CacheMap

/-- `Translator.translate_review_text` (src/src/processing/translator.py,
lines 58-111): empty or whitespace-only text returns `""` at once,
with no API call; a cache hit returns the cached value with no API
call; otherwise `call_openai_api` runs — a raised exception is caught
and turned into `None`; a `None` response is passed through; a
response starting with `"[REFUSAL"` is returned uncached; any other
response is cached and returned. -/
def translate_review_text (cache : CacheMap) (text original_language_code : String)
    (api : ApiCallResult) : TranslateOutcome :=
  let cache_key := original_language_code ++ ":" ++ text
  if isBlank text then ⟨some "", false, cache⟩
  else
    match cacheLookup cache cache_key with
    | some cached => ⟨some cached, false, cache⟩
    | none =>
      match api with
      | .raises _ => ⟨none, true, cache⟩
      | .returns none => ⟨none, true, cache⟩
      | .returns (some t) =>
        if isRefusalString t then ⟨some t, true, cache⟩
        else ⟨some t, true, cache ++ [(cache_key, t)]⟩

/-- The status `_process_single_translation` (src/src/run_translator.py,
lines 56-61) derives from the translator's return value: not-`None`
and not a refusal is `'translated'` (this includes the empty string —
Python `"" is not None`), a refusal is `'skipped'`, `None` is
`'failed'`. -/
def translation_status_of (translation_result : Option String) : String :=
  match translation_result with
  | some s => if isRefusalString s then "skipped" else "translated"
  | none => "failed"

/-- What one translation worker leaves behind: the status written to
`translation_status`, the value written to `english_translation`
(the raw translator return value), and whether the external API was
called. -/
structure SingleTranslationResult where
  status : String
  stored_translation : Option String
  apiCalled : Bool

/-- `_process_single_translation` (src/src/run_translator.py, lines
44-85) with a successful DB write: translate, derive the status, and
persist `(translation_result, status)` on the review row.  Returns the
worker's outcome and the translator cache afterwards. -/
def process_single_translation (cache : CacheMap) (text original_language_code : String)
    (api : ApiCallResult) : SingleTranslationResult × CacheMap :=
  let o := translate_review_text cache text original_language_code api
  (⟨translation_status_of o.result, o.result, o.apiCalled⟩, o.cacheAfter)

/-- One review of a translation batch: its natural id, its text and
language, and the outcome its (single) external call would have. -/
structure BatchItem where
  rid : String
  text : String
  lang : String
  api : ApiCallResult
deriving Repr, DecidableEq

/-- The cache key `_process_single_translation` computes for an item. -/
def itemKey (it : BatchItem) : String :=
  it.lang ++ ":" ++ it.text

/-- One batch of the driving loop of `process_translations`
(src/src/run_translator.py, lines 110-143): every item of the batch is
processed by its own worker, each in its own `try`, so one item's
failure never aborts a sibling; the statuses of all items are
collected.  The workers share the per-app translator's in-memory
cache; this definition is the linearization in which item `i` runs
before item `i+1`.  Returns the per-item statuses (in batch order) and
the cache afterwards. -/
def process_translation_batch (cache : CacheMap) :
    List BatchItem → List String × CacheMap
  | [] => ([], cache)
  | it :: rest =>
    let r := process_single_translation cache it.text it.lang it.api
    let q := process_translation_batch r.2 rest
    (r.1.status :: q.1, q.2)

/-- The aggregate counters of `process_translations`
(src/src/run_translator.py, lines 126-143): a `'translated'` result
increments the translated count, `'skipped'` the skipped count, and
anything else the failed count. -/
def batch_counts (statuses : List String) : Nat × Nat × Nat :=
  (statuses.count "translated", statuses.count "skipped",
    (statuses.filter (fun s => s ≠ "translated" ∧ s ≠ "skipped")).length)

/-! ## Analysis enrichment
(src/src/processing/analyzer.py, src/src/openai_client.py,
src/src/run_analyzer.py) -/

/-- The parameters of `def call_openai_api(prompt, model=..., max_tokens=...,
temperature=..., **kwargs)` (src/src/openai_client.py, lines 69-75)
that have no default value and must therefore be bound at every call. -/
def call_openai_api_required_params : List String := ["prompt"]

/-- The keyword names used at the analyzer's call site
`call_openai_api(messages=prompt, model=..., temperature=...,
max_tokens=...)` (src/src/processing/analyzer.py, lines 65-70).  The
call passes no positional argument. -/
def analyzer_call_keywords : List String := ["messages", "model", "temperature", "max_tokens"]

/-- Python call binding for a call made with keyword arguments only:
the call enters the function body iff every required parameter name is
among the supplied keywords; otherwise Python raises `TypeError`
before any of the body (hence before any API request) runs.  (Unknown
keywords are absorbed by `**kwargs` and cannot fail the binding.) -/
def keywordCallBinds (required provided : List String) : Bool :=
  required.all (fun p => provided.contains p)

/-- What `ReviewAnalyzer.analyze_review_text` returns, as read by its
caller: the value of the `'error'` key if present, the preserved
`'refusal_message'` if present, whether the result is a successful
(validated) analysis dict, and whether an API request was made. -/
structure AnalysisOutcome where
  errorMsg : Option String
  refusalMessage : Option String
  success : Bool
  apiCalled : Bool
deriving Repr, DecidableEq

/-- `ReviewAnalyzer.analyze_review_text` (src/src/processing/analyzer.py,
lines 31-105).  Empty text returns an error dict at once.  Otherwise
the body reaches `call_openai_api(messages=prompt, ...)` inside `try`:
if that keyword call does not bind (the required `prompt` parameter is
not supplied) Python raises `TypeError` at the call — no API request
is made — and the `except Exception` arm returns the
`"Exception during analysis: ..."` error dict.  Were the call to bind,
the response would be handled as in the source: `None` is an error
dict, a `"[REFUSAL"` response becomes the refusal error dict with the
raw string preserved, and otherwise the JSON parse/validation (whose
outcome is the parameter `parsesValidly`) yields either the validated
result or a parse-error dict. -/
def analyze_review_text (review_text : String) (apiResponse : Option String)
    (parsesValidly : Bool) : AnalysisOutcome :=
  if isBlank review_text then ⟨some "Input text is empty.", none, false, false⟩
  else if ¬ keywordCallBinds call_openai_api_required_params analyzer_call_keywords then
    ⟨some "Exception during analysis: TypeError: missing required argument prompt",
      none, false, false⟩
  else
    match apiResponse with
    | none => ⟨some "Analysis generation failed (API returned None or empty).", none, false, true⟩
    | some r =>
      if isRefusalString r then
        ⟨some "Model refused analysis request", some r, false, true⟩
      else if parsesValidly then ⟨none, none, true, true⟩
      else ⟨some "Failed to parse/validate analysis JSON from AI.", some r, false, true⟩

/-- The status `_process_single_analysis` (src/src/run_analyzer.py,
lines 70-77) derives from the analyzer's result dict: no `'error'` key
is `'analyzed'`, the refusal error is `'skipped'`, anything else is
`'failed'`. -/
def analysis_status_of (o : AnalysisOutcome) : String :=
  if o.errorMsg.isNone then "analyzed"
  else if o.errorMsg = some "Model refused analysis request" then "skipped"
  else "failed"

/-! ## Report generation (src/src/reporting/excel_generator.py) -/

/-- An AI-summary cell of the report: either a validated summary or an
error placeholder (the `'error'`-keyed dict), as produced by
`_generate_single_summary`, which catches every exception of its own
LLM call and returns an error dict instead of raising. -/
inductive SummaryCell where
  | summary (content : String)
  | errorCell (msg : String)
deriving Repr, DecidableEq

/-- What `asyncio.gather(*tasks, return_exceptions=True)` hands back
for one task: the dict the task returned (`val`), or the exception it
raised (`exn`), which `return_exceptions=True` delivers in place
instead of cancelling the siblings. -/
inductive TaskOutcome where
  | val (cell : SummaryCell)
  | exn (msg : String)
deriving Repr, DecidableEq

/-- A per-language group as `generate_summary_report` prepares it:
the language code, whether its filtered DataFrame slice is non-empty,
and the joined summary input text built from its reviews. -/
structure LangGroup where
  code : String
  hasRows : Bool
  text : String
deriving Repr, DecidableEq

/-- Per-language entry of `language_data_map` after task preparation:
the recorded `task_index` (an `Int`: the code stores `len(tasks) - 1`,
which is `-1` when no task has been appended yet), if set, and the
pre-set `summary_result`, if set. -/
structure LangEntry where
  code : String
  taskIndex : Option Int
  preset : Option SummaryCell
deriving Repr, DecidableEq

/-- The task-preparation loop of `generate_summary_report`
(src/src/reporting/excel_generator.py, lines 180-221), which walks the
languages in order and builds the task list and `language_data_map`.
For a language with no rows, only an error `summary_result` is set
(the loop `continue`s before touching `task_index`).  Otherwise the
code sets `task_index = len(tasks) - 1` *before* conditionally
appending the language's task (source line 208 precedes the `append`
at line 218 — this order is reproduced verbatim here); a language
whose input text is blank gets an error `summary_result` but keeps the
already-set `task_index`. -/
def prepare_lang_tasks : List LangGroup → List String → List LangEntry × List String
  | [], tasks => ([], tasks)
  | g :: rest, tasks =>
    if ¬ g.hasRows then
      let q := prepare_lang_tasks rest tasks
      (⟨g.code, none, some (.errorCell "No reviews for this language.")⟩ :: q.1, q.2)
    else
      let ti : Int := (tasks.length : Int) - 1
      if ¬ isBlank g.text then
        let q := prepare_lang_tasks rest (tasks ++ [g.code])
        (⟨g.code, some ti, none⟩ :: q.1, q.2)
      else
        let q := prepare_lang_tasks rest tasks
        (⟨g.code, some ti,
          some (.errorCell "No valid text input for summary.")⟩ :: q.1, q.2)

/-- List indexing with Python semantics: a negative index counts from
the end (`results[-1]` is the last element); an out-of-range index is
`none` (it would raise `IndexError`). -/
def pyGet (l : List TaskOutcome) (i : Int) : Option TaskOutcome :=
  if 0 ≤ i then l.get? i.toNat
  else if (-i).toNat ≤ l.length then l.get? (l.length - (-i).toNat)
  else none

/-- The per-task result conversion of the attribution loop
(src/src/reporting/excel_generator.py, lines 259-268): an exception
delivered by the gather becomes that slot's error cell, any other
result is used as is; an out-of-range index is kept distinct as an
`IndexError` cell (unreachable in the runs considered here). -/
def attributedCell (results : List TaskOutcome) (i : Int) : SummaryCell :=
  match pyGet results i with
  | some (.val c) => c
  | some (.exn msg) => .errorCell ("Task execution failed: " ++ msg)
  | none => .errorCell "IndexError"

/-- Steps 2-3 of `generate_summary_report`
(src/src/reporting/excel_generator.py, lines 180-283): prepare the
per-language tasks, append the overall task when the overall input
text is non-blank (its index *is* taken after the append, line 245),
run the gather (`outcomes` lists what each created task produced, in
creation order), and attribute results: when at least one task exists,
every language entry carrying a `task_index` reads
`results[task_index]`, overriding any pre-set `summary_result`;
with no tasks at all the attribution loop is skipped and pre-set
results stand.  Returns each language's final AI-summary cell and the
overall summary cell. -/
def generate_report_summaries (langs : List LangGroup) (overallText : String)
    (outcomes : List TaskOutcome) :
    List (String × SummaryCell) × SummaryCell :=
  let p := prepare_lang_tasks langs []
  let entries := p.1
  let tasks := p.2
  let withOverall :=
    if ¬ isBlank overallText then (tasks ++ ["overall"], some ((tasks.length : Int)))
    else (tasks, none)
  let overallIdx := withOverall.2
  let anyTasks := withOverall.1 ≠ []
  let langResults := entries.map (fun e =>
    (e.code,
      match e.taskIndex with
      | some ti =>
        if anyTasks then attributedCell outcomes ti
        else (e.preset.getD (.errorCell "unset"))
      | none => e.preset.getD (.errorCell "unset")))
  let overallResult :=
    match overallIdx with
    | some oi => if anyTasks then attributedCell outcomes oi
                 else .errorCell "No summary tasks run."
    | none => .errorCell "No valid text input for overall summary."
  (langResults, overallResult)

/-! ## Helper lemmas -/

theorem le_foldl_max (l : List Nat) (a : Nat) : a ≤ l.foldl max a := by
  induction l generalizing a with
  | nil => exact le_refl a
  | cons b t ih => exact le_trans (le_max_left a b) (ih (max a b))

theorem foldl_max_le_of_mem {l : List Nat} {x : Nat} (a : Nat) (hx : x ∈ l) :
    x ≤ l.foldl max a := by
  induction l generalizing a with
  | nil => cases hx
  | cons b t ih =>
    rcases List.mem_cons.mp hx with rfl | h
    · exact le_trans (le_max_right a x) (le_foldl_max t (max a x))
    · exact ih (max a b) h

theorem foldl_max_eq_init_or_mem (l : List Nat) (a : Nat) :
    l.foldl max a = a ∨ l.foldl max a ∈ l := by
  induction l generalizing a with
  | nil => exact Or.inl rfl
  | cons b t ih =>
    rcases ih (max a b) with h | h
    · rcases max_choice a b with hab | hab
      · rw [List.foldl_cons, h, hab]; exact Or.inl rfl
      · rw [List.foldl_cons, h, hab]; exact Or.inr (List.mem_cons_self b t)
    · exact Or.inr (List.mem_cons_of_mem b h)

theorem processBatch_ts_le (after : Nat) (batch : List SteamReview) :
    ∀ r ∈ (processBatch after batch).1, r.ts ≤ (processBatch after batch).2.1 := by
  induction batch with
  | nil => intro r hr; simp [processBatch] at hr
  | cons b t ih =>
    intro r hr
    by_cases hc : after ≠ 0 ∧ b.ts ≤ after
    · simp [processBatch, hc] at hr
    · simp only [processBatch, if_neg hc] at hr ⊢
      rcases List.mem_cons.mp hr with rfl | h
      · exact le_max_left _ _
      · exact le_trans (ih r h) (le_max_right _ _)

theorem processBatch_latest_le_or_mem (after : Nat) (batch : List SteamReview) :
    (processBatch after batch).2.1 ≤ after ∨
      ∃ r ∈ (processBatch after batch).1, r.ts = (processBatch after batch).2.1 := by
  induction batch with
  | nil => exact Or.inl (Nat.zero_le after)
  | cons b t ih =>
    by_cases hc : after ≠ 0 ∧ b.ts ≤ after
    · simp only [processBatch, if_pos hc]
      exact Or.inl hc.2
    · simp only [processBatch, if_neg hc]
      rcases max_choice b.ts (processBatch after t).2.1 with hm | hm
      · exact Or.inr ⟨b, List.mem_cons_self b _, hm.symm⟩
      · rcases ih with h | ⟨r, hrmem, hrts⟩
        · exact Or.inl (by rw [hm]; exact h)
        · exact Or.inr ⟨r, List.mem_cons_of_mem b hrmem, by rw [hrts, hm]⟩

theorem processBatch_after_lt {after : Nat} (h : after ≠ 0) (batch : List SteamReview) :
    ∀ r ∈ (processBatch after batch).1, after < r.ts := by
  induction batch with
  | nil => intro r hr; simp [processBatch] at hr
  | cons b t ih =>
    intro r hr
    by_cases hc : after ≠ 0 ∧ b.ts ≤ after
    · simp [processBatch, hc] at hr
    · simp only [processBatch, if_neg hc] at hr
      rcases List.mem_cons.mp hr with rfl | hmem
      · push_neg at hc
        exact Nat.lt_of_not_le (fun hle => absurd (hc h) (by omega))
      · exact ih r hmem

theorem processBatch_fst_eq_takeWhile {after : Nat} (h : after ≠ 0)
    (batch : List SteamReview) :
    (processBatch after batch).1 = batch.takeWhile (fun r => decide (after < r.ts)) := by
  induction batch with
  | nil => rfl
  | cons b t ih =>
    by_cases hc : after ≠ 0 ∧ b.ts ≤ after
    · simp [processBatch, hc, List.takeWhile_cons, Nat.not_lt_of_le hc.2]
    · have hts : after < b.ts := by
        push_neg at hc
        exact Nat.lt_of_not_le (fun hle => absurd (hc h) (by omega))
      simp [processBatch, hc, List.takeWhile_cons, hts, ih]

theorem processBatch_stop_iff {after : Nat} (h : after ≠ 0) (batch : List SteamReview) :
    (processBatch after batch).2.2 = true ↔ ∃ r ∈ batch, r.ts ≤ after := by
  induction batch with
  | nil => simp [processBatch]
  | cons b t ih =>
    by_cases hc : after ≠ 0 ∧ b.ts ≤ after
    · simp only [processBatch, if_pos hc]
      exact ⟨fun _ => ⟨b, List.mem_cons_self b t, hc.2⟩, fun _ => by trivial⟩
    · have hts : ¬ b.ts ≤ after := by
        push_neg at hc
        intro hle; exact absurd (hc h) (by omega)
      simp only [processBatch, if_neg hc]
      rw [ih]
      constructor
      · rintro ⟨r, hr, hle⟩; exact ⟨r, List.mem_cons_of_mem b hr, hle⟩
      · rintro ⟨r, hr, hle⟩
        rcases List.mem_cons.mp hr with rfl | hmem
        · exact absurd hle hts
        · exact ⟨r, hmem, hle⟩

theorem fetchLoop_ts_le (after : Nat) (pages : List (List SteamReview)) :
    ∀ r ∈ (fetchReviewsLoop after pages).1, r.ts ≤ (fetchReviewsLoop after pages).2 := by
  induction pages with
  | nil => intro r hr; simp [fetchReviewsLoop] at hr
  | cons batch rest ih =>
    intro r hr
    by_cases hb : batch = []
    · simp [fetchReviewsLoop, hb] at hr
    · simp only [fetchReviewsLoop, if_neg hb] at hr ⊢
      by_cases hs : (processBatch after batch).2.2 = true
      · simp only [if_pos hs] at hr ⊢
        exact processBatch_ts_le after batch r hr
      · simp only [if_neg hs] at hr ⊢
        rcases List.mem_append.mp hr with h | h
        · exact le_trans (processBatch_ts_le after batch r h) (le_max_left _ _)
        · exact le_trans (ih r h) (le_max_right _ _)

theorem fetchLoop_latest_le_or_mem (after : Nat) (pages : List (List SteamReview)) :
    (fetchReviewsLoop after pages).2 ≤ after ∨
      ∃ r ∈ (fetchReviewsLoop after pages).1, r.ts = (fetchReviewsLoop after pages).2 := by
  induction pages with
  | nil => exact Or.inl (Nat.zero_le after)
  | cons batch rest ih =>
    by_cases hb : batch = []
    · simp only [fetchReviewsLoop, if_pos hb]
      exact Or.inl (Nat.zero_le after)
    · simp only [fetchReviewsLoop, if_neg hb]
      by_cases hs : (processBatch after batch).2.2 = true
      · simp only [if_pos hs]
        exact processBatch_latest_le_or_mem after batch
      · simp only [if_neg hs]
        rcases max_choice (processBatch after batch).2.1 (fetchReviewsLoop after rest).2 with hm | hm
        · rcases processBatch_latest_le_or_mem after batch with h | ⟨r, hrmem, hrts⟩
          · exact Or.inl (by rw [hm]; exact h)
          · exact Or.inr ⟨r, List.mem_append_left _ hrmem, by rw [hrts, hm]⟩
        · rcases ih with h | ⟨r, hrmem, hrts⟩
          · exact Or.inl (by rw [hm]; exact h)
          · exact Or.inr ⟨r, List.mem_append_right _ hrmem, by rw [hrts, hm]⟩

theorem fetchLoop_after_lt {after : Nat} (h : after ≠ 0) (pages : List (List SteamReview)) :
    ∀ r ∈ (fetchReviewsLoop after pages).1, after < r.ts := by
  induction pages with
  | nil => intro r hr; simp [fetchReviewsLoop] at hr
  | cons batch rest ih =>
    intro r hr
    by_cases hb : batch = []
    · simp [fetchReviewsLoop, hb] at hr
    · simp only [fetchReviewsLoop, if_neg hb] at hr
      by_cases hs : (processBatch after batch).2.2 = true
      · simp only [if_pos hs] at hr
        exact processBatch_after_lt h batch r hr
      · simp only [if_neg hs] at hr
        rcases List.mem_append.mp hr with hmem | hmem
        · exact processBatch_after_lt h batch r hmem
        · exact ih r hmem

theorem app_cycle_monotone (lastOpt : Option Nat) (pages : List (List SteamReview)) :
    lastOpt.getD 0 ≤ (run_fetcher_app_cycle lastOpt pages).newLast := by
  simp only [run_fetcher_app_cycle, fetch_reviews]
  by_cases h1 : (fetchReviewsLoop (lastOpt.getD 0) pages).1 = []
  · simp [h1]
  · simp only [if_neg h1]
    by_cases h2 : (fetchReviewsLoop (lastOpt.getD 0) pages).2 > lastOpt.getD 0
    · simp only [if_pos h2]
      omega
    · simp [h2]

theorem app_cycle_no_overshoot (lastOpt : Option Nat) (pages : List (List SteamReview)) :
    (run_fetcher_app_cycle lastOpt pages).newLast = lastOpt.getD 0 ∨
      ∃ r ∈ (run_fetcher_app_cycle lastOpt pages).persisted,
        r.ts = (run_fetcher_app_cycle lastOpt pages).newLast := by
  simp only [run_fetcher_app_cycle, fetch_reviews]
  by_cases h1 : (fetchReviewsLoop (lastOpt.getD 0) pages).1 = []
  · simp [h1]
  · simp only [if_neg h1]
    by_cases h2 : (fetchReviewsLoop (lastOpt.getD 0) pages).2 > lastOpt.getD 0
    · simp only [if_pos h2]
      rcases fetchLoop_latest_le_or_mem (lastOpt.getD 0) pages with h | hm
      · omega
      · exact Or.inr hm
    · simp [h2]

theorem process_single_video_added_gt {stored : List StoredVideo} {cutoff : Nat}
    {v : VideoInfo} {ts : Nat}
    (h : process_single_video stored cutoff v = (true, ts)) : cutoff < ts := by
  unfold process_single_video at h
  split at h
  · exact absurd (congrArg Prod.fst h) (by simp)
  · cases hm : v.meta with
    | none => rw [hm] at h; exact absurd (congrArg Prod.fst h) (by simp)
    | some ts0 =>
      rw [hm] at h
      dsimp only at h
      by_cases hle : ts0 ≤ cutoff
      · rw [if_pos hle] at h
        exact absurd (congrArg Prod.fst h) (by simp)
      · rw [if_neg hle] at h
        have h2 := congrArg Prod.snd h
        simp only at h2
        omega

theorem addedVideoTimestamps_gt_cutoff (stored : List StoredVideo) (cutoff : Nat)
    (vids : List VideoInfo) :
    ∀ ts ∈ addedVideoTimestamps stored cutoff vids, cutoff < ts := by
  intro ts hts
  rcases List.mem_filterMap.mp hts with ⟨v, _, hv⟩
  dsimp only at hv
  by_cases hr : (process_single_video stored cutoff v).1 = true
  · rw [if_pos hr] at hv
    have hts2 : (process_single_video stored cutoff v).2 = ts := Option.some.inj hv
    have hpair : process_single_video stored cutoff v = (true, ts) := by
      rw [← hr, ← hts2]
    exact process_single_video_added_gt hpair
  · rw [if_neg hr] at hv
    cases hv

theorem channel_cycle_no_overshoot (last : Nat) (stored : List StoredVideo)
    (now lookback : Nat) (vids : List VideoInfo) (hv : vids ≠ []) :
    (process_channel_cycle last stored now lookback (some vids)).newLastChecked = last ∨
      (process_channel_cycle last stored now lookback (some vids)).newLastChecked ∈
        (process_channel_cycle last stored now lookback (some vids)).addedTs := by
  cases vids with
  | nil => exact absurd rfl hv
  | cons v vs =>
    simp only [process_channel_cycle]
    by_cases hh :
        (addedVideoTimestamps stored (max (dbMaxUploadTs stored) (now - lookback)) (v :: vs)).foldl
          max 0 > dbMaxUploadTs stored
    · simp only [if_pos hh]
      rcases foldl_max_eq_init_or_mem
          (addedVideoTimestamps stored (max (dbMaxUploadTs stored) (now - lookback)) (v :: vs)) 0
        with h0 | hmem
      · rw [h0] at hh; omega
      · exact Or.inr hmem
    · simp [hh]

theorem channel_cycle_monotone_of_le_dbmax {last : Nat} {stored : List StoredVideo}
    (now lookback : Nat) (vids : List VideoInfo) (hv : vids ≠ [])
    (h : last ≤ dbMaxUploadTs stored) :
    last ≤ (process_channel_cycle last stored now lookback (some vids)).newLastChecked := by
  cases vids with
  | nil => exact absurd rfl hv
  | cons v vs =>
    simp only [process_channel_cycle]
    by_cases hh :
        (addedVideoTimestamps stored (max (dbMaxUploadTs stored) (now - lookback)) (v :: vs)).foldl
          max 0 > dbMaxUploadTs stored
    · simp only [if_pos hh]
      omega
    · simp [hh]

theorem app_cycle_persisted_gt {last : Nat} (hlast : last ≠ 0)
    (pages : List (List SteamReview)) :
    ∀ r ∈ (run_fetcher_app_cycle (some last) pages).persisted, last < r.ts := by
  intro r hr
  have hsub : r ∈ (fetchReviewsLoop last pages).1 := by
    simp only [run_fetcher_app_cycle, fetch_reviews, Option.getD_some] at hr
    by_cases h1 : (fetchReviewsLoop last pages).1 = []
    · simp [h1] at hr
    · simp only [if_neg h1] at hr
      by_cases h2 : (fetchReviewsLoop last pages).2 > last
      · simpa [h2] using hr
      · simpa [h2] using hr
  exact fetchLoop_after_lt hlast pages r hsub

/-! ## Claim C1: high-water-mark monotonicity and no-overshoot -/

/-- C1, counterexample.  The claim states that the stored high-water
mark is non-decreasing across fetch cycles for channels too
(`last_checked_timestamp`).  It is not: cycle one, at `now = 1000`,
receives an empty video list and takes the advance-to-now escape hatch
(mark becomes 1000, no video stored); cycle two, at `now = 1100` with
lookback 500, receives a video uploaded at 700, which passes the
effective cutoff `max 0 (1100 - 500) = 600`, is added, and — because
`700 >` the stored DB maximum `0` — the mark is *lowered* from 1000 to
700 by a normal (non-escape-hatch) cycle. -/
theorem c1_highwater_counterexample :
    (process_channel_cycle 0 [] 1000 500 (some [])).newLastChecked = 1000
    ∧ (process_channel_cycle 1000 [] 1100 500 (some [⟨"v1", some 700⟩])).newLastChecked = 700
    ∧ (process_channel_cycle 1000 [] 1100 500 (some [⟨"v1", some 700⟩])).addedTs = [700]
    ∧ ¬ (1000 ≤ 700) := by
  decide

/-- C1, amended.  For apps, `last_fetched_timestamp` is non-decreasing
and, when it moves, it equals the timestamp of one of the reviews
handed to the persister that cycle (so it never exceeds their
maximum).  For channels, a cycle with a non-empty delivered video list
either holds `last_checked_timestamp` or sets it to the timestamp of a
video actually added that cycle, and the mark is non-decreasing
*provided* it does not exceed the stored videos' maximum upload
timestamp — the advance-to-now escape hatch (failed call, missing
handle, or empty video list, all of which set the mark to `now`) can
break that proviso, after which a later normal cycle may lower the
mark, as in the counterexample. -/
theorem c1_highwater_amended :
    (∀ (lastOpt : Option Nat) (pages : List (List SteamReview)),
        lastOpt.getD 0 ≤ (run_fetcher_app_cycle lastOpt pages).newLast
        ∧ ((run_fetcher_app_cycle lastOpt pages).newLast = lastOpt.getD 0
            ∨ ∃ r ∈ (run_fetcher_app_cycle lastOpt pages).persisted,
                r.ts = (run_fetcher_app_cycle lastOpt pages).newLast))
    ∧ (∀ (last : Nat) (stored : List StoredVideo) (now lookback : Nat)
          (vids : List VideoInfo), vids ≠ [] →
        ((process_channel_cycle last stored now lookback (some vids)).newLastChecked = last
          ∨ (process_channel_cycle last stored now lookback (some vids)).newLastChecked ∈
              (process_channel_cycle last stored now lookback (some vids)).addedTs)
        ∧ (last ≤ dbMaxUploadTs stored →
            last ≤ (process_channel_cycle last stored now lookback (some vids)).newLastChecked))
    ∧ (∀ (last : Nat) (stored : List StoredVideo) (now lookback : Nat),
        (process_channel_cycle last stored now lookback none).newLastChecked = now
        ∧ (process_channel_cycle last stored now lookback (some [])).newLastChecked = now) := by
  refine ⟨fun lastOpt pages => ⟨app_cycle_monotone lastOpt pages,
    app_cycle_no_overshoot lastOpt pages⟩, ?_, fun _ _ _ _ => ⟨rfl, rfl⟩⟩
  intro last stored now lookback vids hv
  exact ⟨channel_cycle_no_overshoot last stored now lookback vids hv,
    fun h => channel_cycle_monotone_of_le_dbmax now lookback vids hv h⟩

/-- C1, witness: the channel conjunct applied at a concrete cycle
whose mark (3) does not exceed the stored DB maximum (5). -/
theorem c1_highwater_amended_witness :
    (3 : Nat) ≤ (process_channel_cycle 3 [⟨"w", 5⟩] 100 10
      (some [⟨"x", some 90⟩])).newLastChecked :=
  (c1_highwater_amended.2.1 3 [⟨"w", 5⟩] 100 10 [⟨"x", some 90⟩]
    (by decide)).2 (by decide)

/-! ## Claim C2: cutoff correctness -/

/-- C2, counterexample.  The claim states that no fetch cycle hands
the persister an item whose timestamp is `<=` the cycle's cutoff, and
that page consumption stops at the first such item.  For a cycle whose
stored position is 0 the effective cutoff is 0, yet — because the code
guards the cutoff with the Python truthiness test `if after_timestamp`
(src/src/steam_client.py line 97) — an item with timestamp 0 (`<=` the
cutoff) is persisted, and consumption continues past it. -/
theorem c2_cutoff_counterexample :
    (⟨"a", 0⟩ : SteamReview) ∈
        (run_fetcher_app_cycle (some 0) [[⟨"a", 0⟩, ⟨"b", 5⟩]]).persisted
    ∧ (⟨"a", 0⟩ : SteamReview).ts ≤ 0
    ∧ (run_fetcher_app_cycle (some 0) [[⟨"a", 0⟩, ⟨"b", 5⟩]]).persisted
        = [⟨"a", 0⟩, ⟨"b", 5⟩] := by
  decide

/-- C2, amended.  The concrete scenario holds exactly as stated
(position 1000, newest-first page `[1200, 1100, 1000, 900]`: items
1200 and 1100 persisted, the cycle stops at the 1000 item, new
position 1200); and for every cycle whose cutoff `last` is *nonzero*:
no persisted item has timestamp `<= last`, each page's processed items
are exactly its longest prefix of items with timestamp `> last`
(consumption stops at the first item at or below the cutoff), and a
page containing such an item ends the cycle — later pages are never
consumed.  When the stored position is 0 the cutoff test is disabled
(Python truthiness), as the counterexample shows. -/
theorem c2_cutoff_amended :
    (run_fetcher_app_cycle (some 1000)
        [[⟨"a", 1200⟩, ⟨"b", 1100⟩, ⟨"c", 1000⟩, ⟨"d", 900⟩]]
      = ⟨1200, [⟨"a", 1200⟩, ⟨"b", 1100⟩]⟩)
    ∧ (∀ last : Nat, last ≠ 0 →
        (∀ (pages : List (List SteamReview)) (r : SteamReview),
            r ∈ (run_fetcher_app_cycle (some last) pages).persisted → last < r.ts)
        ∧ (∀ batch : List SteamReview,
            (processBatch last batch).1
              = batch.takeWhile (fun r => decide (last < r.ts)))
        ∧ (∀ (batch : List SteamReview) (rest : List (List SteamReview)),
            batch ≠ [] → (∃ r ∈ batch, r.ts ≤ last) →
            fetch_reviews last (batch :: rest)
              = ((processBatch last batch).1, (processBatch last batch).2.1))) := by
  refine ⟨by decide, ?_⟩
  intro last hlast
  refine ⟨fun pages r hr => app_cycle_persisted_gt hlast pages r hr,
    fun batch => processBatch_fst_eq_takeWhile hlast batch, ?_⟩
  intro batch rest hb hex
  have hs : (processBatch last batch).2.2 = true :=
    (processBatch_stop_iff hlast batch).mpr hex
  simp [fetch_reviews, fetchReviewsLoop, hb, hs]

/-- C2, witness: the nonzero-cutoff conjunct applied to the scenario
page at the item with timestamp 1200. -/
theorem c2_cutoff_amended_witness : (1000 : Nat) < 1200 :=
  (c2_cutoff_amended.2 1000 (by decide)).1
    [[⟨"a", 1200⟩, ⟨"b", 1100⟩, ⟨"c", 1000⟩, ⟨"d", 900⟩]] ⟨"a", 1200⟩ (by decide)

/-! ## Claim C10: effective cutoff -/

/-- C10, counterexample.  The claim states every fetch cycle uses the
effective cutoff `max(last_known_position, now - max_lookback)`, so
that no item older than the lookback window is fetched.  The Steam
fetch applies no lookback at all: with stored position 1000, an item
with timestamp 1001 is persisted even though it is far older than
`now - max_lookback` for a present-day `now` (here `2000000 - 604800 =
1395200 >= 1001`), which the claimed cutoff would have excluded. -/
theorem c10_cutoff_counterexample :
    (⟨"old", 1001⟩ : SteamReview) ∈
        (run_fetcher_app_cycle (some 1000) [[⟨"old", 1001⟩]]).persisted
    ∧ 1001 ≤ max 1000 (2000000 - 604800) := by
  decide

/-- C10, amended.  The YouTube fetch does use the claimed two-sided
cutoff, except that its position side is the *stored videos'* maximum
upload timestamp, not the channel's `last_checked_timestamp`: every
video added by a channel cycle is strictly newer than
`max (dbMaxUploadTs stored) (now - lookback)`, so nothing older than
the lookback window is ever added.  The Steam fetch uses only the
stored position as cutoff (no lookback window): every persisted review
is strictly newer than the nonzero stored position. -/
theorem c10_cutoff_amended :
    (∀ (last : Nat) (stored : List StoredVideo) (now lookback : Nat)
        (vids : List VideoInfo) (ts : Nat),
        ts ∈ (process_channel_cycle last stored now lookback (some vids)).addedTs →
          max (dbMaxUploadTs stored) (now - lookback) < ts)
    ∧ (∀ (last : Nat) (pages : List (List SteamReview)) (r : SteamReview), last ≠ 0 →
        r ∈ (run_fetcher_app_cycle (some last) pages).persisted → last < r.ts) := by
  constructor
  · intro last stored now lookback vids ts hts
    have hmem : ts ∈ addedVideoTimestamps stored
        (max (dbMaxUploadTs stored) (now - lookback)) vids := by
      cases vids with
      | nil => simp [process_channel_cycle] at hts
      | cons v vs =>
        simp only [process_channel_cycle] at hts
        by_cases hh :
            (addedVideoTimestamps stored (max (dbMaxUploadTs stored) (now - lookback))
              (v :: vs)).foldl max 0 > dbMaxUploadTs stored
        · simpa [hh] using hts
        · simpa [hh] using hts
    exact addedVideoTimestamps_gt_cutoff stored _ vids ts hmem
  · intro last pages r hlast hr
    exact app_cycle_persisted_gt hlast pages r hr

/-- C10, witness: the channel conjunct applied at the concrete cycle
that adds a video with timestamp 700 past cutoff `max 0 600 = 600`. -/
theorem c10_cutoff_amended_witness : max (dbMaxUploadTs []) (1100 - 500) < 700 :=
  c10_cutoff_amended.1 1000 [] 1100 500 [⟨"v1", some 700⟩] 700 (by decide)

/-! ## Persister lemmas -/

theorem insert_error_of_violation :
    ∀ (rows table : List ReviewRow),
      (∃ r ∈ rows, rowViolatesConstraint r = true) →
      ∃ e, insertOnConflictDoNothing table rows = .error e := by
  intro rows
  induction rows with
  | nil =>
    intro table h
    rcases h with ⟨r, hr, _⟩
    cases hr
  | cons a t ih =>
    intro table h
    by_cases ha : rowViolatesConstraint a = true
    · exact ⟨"IntegrityError: null value in required column",
        by simp [insertOnConflictDoNothing, ha]⟩
    · rcases h with ⟨r, hr, hviol⟩
      rcases List.mem_cons.mp hr with rfl | hmem
      · exact absurd hviol ha
      · have hrest : ∃ r ∈ t, rowViolatesConstraint r = true := ⟨r, hmem, hviol⟩
        by_cases hdup :
            (table.any fun s => s.recommendationid = a.recommendationid) = true
        · rcases ih table hrest with ⟨e, he⟩
          exact ⟨e, by simp only [insertOnConflictDoNothing, if_neg ha, if_pos hdup]; exact he⟩
        · rcases ih (table ++ [a]) hrest with ⟨e, he⟩
          exact ⟨e, by simp only [insertOnConflictDoNothing, if_neg ha, if_neg hdup]; exact he⟩

theorem insert_ok_shape :
    ∀ (rows table result : List ReviewRow),
      insertOnConflictDoNothing table rows = .ok result →
      ∃ extra, result = table ++ extra := by
  intro rows
  induction rows with
  | nil =>
    intro table result h
    cases h
    exact ⟨[], by simp⟩
  | cons a t ih =>
    intro table result h
    simp only [insertOnConflictDoNothing] at h
    by_cases ha : rowViolatesConstraint a = true
    · simp [ha] at h
    · rw [if_neg ha] at h
      by_cases hdup :
          (table.any fun s => s.recommendationid = a.recommendationid) = true
      · rw [if_pos hdup] at h
        exact ih table result h
      · rw [if_neg hdup] at h
        rcases ih (table ++ [a]) result h with ⟨extra, hx⟩
        exact ⟨a :: extra, by rw [hx]; simp⟩

theorem insert_ok_no_violation :
    ∀ (rows table result : List ReviewRow),
      insertOnConflictDoNothing table rows = .ok result →
      ∀ r ∈ rows, rowViolatesConstraint r = false := by
  intro rows
  induction rows with
  | nil =>
    intro table result _ r hr
    cases hr
  | cons a t ih =>
    intro table result h r hr
    simp only [insertOnConflictDoNothing] at h
    by_cases ha : rowViolatesConstraint a = true
    · simp [ha] at h
    · rw [if_neg ha] at h
      rcases List.mem_cons.mp hr with rfl | hmem
      · exact Bool.not_eq_true _ ▸ Bool.of_not_eq_true ha
      · by_cases hdup :
            (table.any fun s => s.recommendationid = a.recommendationid) = true
        · rw [if_pos hdup] at h
          exact ih table result h r hmem
        · rw [if_neg hdup] at h
          exact ih (table ++ [a]) result h r hmem

theorem insert_ok_mem :
    ∀ (rows table result : List ReviewRow),
      insertOnConflictDoNothing table rows = .ok result →
      ∀ r ∈ rows,
        (result.any fun s => s.recommendationid = r.recommendationid) = true := by
  intro rows
  induction rows with
  | nil =>
    intro table result _ r hr
    cases hr
  | cons a t ih =>
    intro table result h r hr
    simp only [insertOnConflictDoNothing] at h
    by_cases ha : rowViolatesConstraint a = true
    · simp [ha] at h
    · rw [if_neg ha] at h
      by_cases hdup :
          (table.any fun s => s.recommendationid = a.recommendationid) = true
      · rw [if_pos hdup] at h
        rcases List.mem_cons.mp hr with hre | hmem
        · subst hre
          rcases insert_ok_shape t table result h with ⟨extra, rfl⟩
          rw [List.any_append, hdup]
          rfl
        · exact ih table result h r hmem
      · rw [if_neg hdup] at h
        rcases List.mem_cons.mp hr with hre | hmem
        · subst hre
          rcases insert_ok_shape t (table ++ [r]) result h with ⟨extra, rfl⟩
          simp [List.any_append]
        · exact ih (table ++ [a]) result h r hmem

theorem insert_ok_of_all_present :
    ∀ (rows table : List ReviewRow),
      (∀ r ∈ rows, rowViolatesConstraint r = false) →
      (∀ r ∈ rows,
        (table.any fun s => s.recommendationid = r.recommendationid) = true) →
      insertOnConflictDoNothing table rows = .ok table := by
  intro rows
  induction rows with
  | nil => intro table _ _; rfl
  | cons a t ih =>
    intro table hviol hpres
    have ha := hviol a (List.mem_cons_self a t)
    have hd := hpres a (List.mem_cons_self a t)
    simp only [insertOnConflictDoNothing, ha, hd]
    simp only [Bool.false_eq_true, if_false, if_true]
    exact ih table (fun r hr => hviol r (List.mem_cons_of_mem a hr))
      (fun r hr => hpres r (List.mem_cons_of_mem a hr))

theorem add_video_idempotent (table : List VideoRow) (vid ch : String)
    (title : Option String) :
    add_video (add_video table vid ch title).1 vid ch title
      = add_video table vid ch title := by
  cases hf : table.find? (fun v => v.id = vid) with
  | some existing =>
    have h1 : add_video table vid ch title = (table, some existing) := by
      unfold add_video
      rw [hf]
    rw [h1]
    exact h1
  | none =>
    have h1 : add_video table vid ch title
        = (table ++ [⟨vid, ch, title, "pending", "pending"⟩],
            some ⟨vid, ch, title, "pending", "pending"⟩) := by
      unfold add_video
      rw [hf]
    rw [h1]
    unfold add_video
    rw [List.find?_append, hf]
    simp

/-! ## Claim C3: the persister's raising behaviour -/

/-- C3, counterexample.  The claim states the bulk persister raises on
a genuine constraint violation (a missing required field) so the
caller's cycle aborts.  It does not: a batch whose single row lacks
the required `original_language` fails the insert, but
`add_reviews_bulk` catches the exception, rolls the batch back
(table unchanged), and returns normally with nothing raised. -/
theorem c3_persister_counterexample :
    rowViolatesConstraint ⟨"r1", none, "bad row", 5⟩ = true
    ∧ (add_reviews_bulk [] [⟨"r1", none, "bad row", 5⟩]).raised = false
    ∧ (add_reviews_bulk [] [⟨"r1", none, "bad row", 5⟩]).table = [] := by
  decide

/-- C3, amended.  The bulk persister never raises at all — on
duplicate-id conflicts (row-wise no-ops inside the statement) *or* on
genuine constraint violations: the `except Exception` arm of
`add_reviews_bulk` catches every database error, rolls the transaction
back (so a batch containing a violating row leaves the table exactly
as it was, silently losing the whole batch), and returns normally, so
the caller's fetch cycle continues and still advances the high-water
mark. -/
theorem c3_persister_amended :
    (∀ table rows : List ReviewRow, (add_reviews_bulk table rows).raised = false)
    ∧ (∀ table rows : List ReviewRow,
        (∃ r ∈ rows, rowViolatesConstraint r = true) →
          (add_reviews_bulk table rows).table = table) := by
  constructor
  · intro table rows
    by_cases h : rows = []
    · simp [add_reviews_bulk, h]
    · simp only [add_reviews_bulk, if_neg h]
      cases hins : insertOnConflictDoNothing table rows with
      | ok t => simp [hins]
      | error e => simp [hins]
  · intro table rows hex
    by_cases h : rows = []
    · simp [add_reviews_bulk, h]
    · rcases insert_error_of_violation rows table hex with ⟨e, he⟩
      simp [add_reviews_bulk, h, he]

/-- C3, witness: the rollback conjunct applied to a one-good-row table
and a batch whose row violates the `NOT NULL` constraint. -/
theorem c3_persister_amended_witness :
    (add_reviews_bulk [⟨"r0", some "english", "fine", 1⟩]
        [⟨"r1", none, "bad row", 5⟩]).table
      = [⟨"r0", some "english", "fine", 1⟩] :=
  c3_persister_amended.2 [⟨"r0", some "english", "fine", 1⟩]
    [⟨"r1", none, "bad row", 5⟩]
    ⟨⟨"r1", none, "bad row", 5⟩, by decide, by decide⟩

/-! ## Claim C4: idempotent persistence -/

/-- C4.  Persisting the same batch twice leaves the table exactly as
persisting it once (`add_reviews_bulk` is idempotent on the stored
table, whatever the batch — including batches with duplicates or
constraint violations); every call only ever appends to the table, so
pre-existing records are never updated by a duplicate; and
`add_video` called twice with the same natural id leaves the same
table and returns the existing row unchanged. -/
theorem c4_idempotent_persister :
    (∀ table rows : List ReviewRow,
        add_reviews_bulk (add_reviews_bulk table rows).table rows
          = add_reviews_bulk table rows)
    ∧ (∀ table rows : List ReviewRow,
        ∃ extra, (add_reviews_bulk table rows).table = table ++ extra)
    ∧ (∀ (table : List VideoRow) (vid ch : String) (title : Option String),
        add_video (add_video table vid ch title).1 vid ch title
          = add_video table vid ch title) := by
  refine ⟨?_, ?_, fun table vid ch title => add_video_idempotent table vid ch title⟩
  · intro table rows
    by_cases h : rows = []
    · simp [add_reviews_bulk, h]
    · cases hins : insertOnConflictDoNothing table rows with
      | ok result =>
        have hnv := insert_ok_no_violation rows table result hins
        have hpres := insert_ok_mem rows table result hins
        have h2 : insertOnConflictDoNothing result rows = .ok result :=
          insert_ok_of_all_present rows result hnv hpres
        simp [add_reviews_bulk, h, hins, h2]
      | error e =>
        simp [add_reviews_bulk, h, hins]
  · intro table rows
    by_cases h : rows = []
    · exact ⟨[], by simp [add_reviews_bulk, h]⟩
    · cases hins : insertOnConflictDoNothing table rows with
      | ok result =>
        rcases insert_ok_shape rows table result hins with ⟨extra, hx⟩
        exact ⟨extra, by simp [add_reviews_bulk, h, hins, hx]⟩
      | error e =>
        exact ⟨[], by simp [add_reviews_bulk, h, hins]⟩

/-! ## Claim C5: the analyzer's broken keyword call -/

/-- C5.  For every non-empty review text — whatever response the API
would give and however the JSON validation would go — the analyzer
returns an error dict, makes no API request, and the dispatcher marks
the review `'failed'`, never `'analyzed'`: the call site passes the
prompt under the keyword `messages` while `call_openai_api`'s required
parameter is named `prompt`, so the call raises `TypeError` before any
request and the exception arm converts it into the error dict. -/
theorem c5_analyzer_always_fails :
    ∀ (review_text : String) (apiResponse : Option String) (parsesValidly : Bool),
      isBlank review_text = false →
        (analyze_review_text review_text apiResponse parsesValidly).errorMsg.isSome = true
        ∧ (analyze_review_text review_text apiResponse parsesValidly).success = false
        ∧ (analyze_review_text review_text apiResponse parsesValidly).apiCalled = false
        ∧ analysis_status_of (analyze_review_text review_text apiResponse parsesValidly)
            = "failed" := by
  intro text api parses hblank
  have hbind : keywordCallBinds call_openai_api_required_params analyzer_call_keywords
      = false := by decide
  have hres : analyze_review_text text api parses
      = ⟨some "Exception during analysis: TypeError: missing required argument prompt",
          none, false, false⟩ := by
    unfold analyze_review_text
    rw [hblank, hbind]
    simp
  rw [hres]
  refine ⟨rfl, rfl, rfl, ?_⟩
  decide

/-- C5, witness: even with a well-formed API response available and a
JSON validation that would succeed, a non-empty review is marked
`'failed'`. -/
theorem c5_analyzer_always_fails_witness :
    analysis_status_of (analyze_review_text "Great game, runs well."
      (some "structured json") true) = "failed" :=
  (c5_analyzer_always_fails "Great game, runs well." (some "structured json") true
    (by decide)).2.2.2

/-! ## Claim C6: empty source text -/

/-- C6, counterexample.  The claim states an item with empty source
text gets `translation_status = 'failed'`.  It does not: the
translator returns the empty string for empty input, and the
dispatcher's classification (`is not None` and not a refusal) marks
the item `'translated'` — though, as claimed, no external call is
made. -/
theorem c6_empty_translation_counterexample :
    (process_single_translation [] "" "schinese" (.returns none)).1.status = "translated"
    ∧ ¬ ((process_single_translation [] "" "schinese" (.returns none)).1.status = "failed")
    ∧ (process_single_translation [] "" "schinese" (.returns none)).1.apiCalled = false := by
  decide

/-- C6, amended.  For every item whose source text is empty or
whitespace-only, the enrichment step makes zero external calls, stores
the empty string as the translation, leaves the cache untouched — and
sets `translation_status` to `'translated'`, not `'failed'`. -/
theorem c6_empty_translation_amended :
    ∀ (cache : CacheMap) (text lang : String) (api : ApiCallResult),
      isBlank text = true →
        (process_single_translation cache text lang api).1.status = "translated"
        ∧ (process_single_translation cache text lang api).1.apiCalled = false
        ∧ (process_single_translation cache text lang api).1.stored_translation = some ""
        ∧ (process_single_translation cache text lang api).2 = cache := by
  intro cache text lang api hblank
  have ho : translate_review_text cache text lang api = ⟨some "", false, cache⟩ := by
    unfold translate_review_text
    rw [hblank]
    simp
  refine ⟨?_, ?_, ?_, ?_⟩ <;> simp [process_single_translation, ho]
  decide

/-- C6, witness: a whitespace-only review with a perfectly good API
response available is still marked `'translated'` without a call. -/
theorem c6_empty_translation_amended_witness :
    (process_single_translation [] " " "schinese"
        (.returns (some "unused"))).1.status = "translated" :=
  (c6_empty_translation_amended [] " " "schinese" (.returns (some "unused"))
    (by decide)).1

/-! ## Claim C7: refusals become skipped -/

/-- C7.  When the LLM call returns a `"[REFUSAL..."` string for a
non-empty, uncached item, the translation dispatcher records the item
as `'skipped'` (not `'failed'`) and stores the raw refusal string in
`english_translation` for diagnostics; and the analysis dispatcher's
classification likewise maps the analyzer's refusal dict (whose
`refusal_message` preserves the raw string) to `'skipped'`. -/
theorem c7_refusal_skipped :
    (∀ (cache : CacheMap) (text lang refusal : String),
        isBlank text = false →
        cacheLookup cache (lang ++ ":" ++ text) = none →
        isRefusalString refusal = true →
          (process_single_translation cache text lang
              (.returns (some refusal))).1.status = "skipped"
          ∧ (process_single_translation cache text lang
              (.returns (some refusal))).1.stored_translation = some refusal)
    ∧ (∀ refusal : String,
        analysis_status_of ⟨some "Model refused analysis request", some refusal,
          false, true⟩ = "skipped") := by
  constructor
  · intro cache text lang refusal hblank hmiss href
    have ho : translate_review_text cache text lang (.returns (some refusal))
        = ⟨some refusal, true, cache⟩ := by
      simp [translate_review_text, hblank, hmiss, href]
    constructor
    · simp [process_single_translation, ho, translation_status_of, href]
    · simp [process_single_translation, ho]
  · intro refusal
    rfl

/-- C7, witness: a concrete refusal on a concrete uncached item. -/
theorem c7_refusal_skipped_witness :
    (process_single_translation [] "hola" "spanish"
        (.returns (some "[REFUSAL: policy]"))).1.status = "skipped" :=
  (c7_refusal_skipped.1 [] "hola" "spanish" "[REFUSAL: policy]"
    (by decide) rfl (by decide)).1

/-! ## Batch lemmas for partial-failure isolation -/

theorem translation_status_terminal (r : Option String) :
    translation_status_of r = "translated" ∨ translation_status_of r = "skipped"
    ∨ translation_status_of r = "failed" := by
  cases r with
  | none => exact Or.inr (Or.inr rfl)
  | some s =>
    by_cases h : isRefusalString s = true
    · exact Or.inr (Or.inl (by simp [translation_status_of, h]))
    · exact Or.inl (by simp [translation_status_of, h])

theorem translate_returns_some (cache : CacheMap) (text lang s0 : String) :
    ∃ t, (translate_review_text cache text lang (.returns (some s0))).result = some t := by
  by_cases hb : isBlank text = true
  · exact ⟨"", by simp [translate_review_text, hb]⟩
  · cases hc : cacheLookup cache (lang ++ ":" ++ text) with
    | some cached => exact ⟨cached, by simp [translate_review_text, hb, hc]⟩
    | none =>
      by_cases hr : isRefusalString s0 = true
      · exact ⟨s0, by simp [translate_review_text, hb, hc, hr]⟩
      · exact ⟨s0, by simp [translate_review_text, hb, hc, hr]⟩

theorem single_translation_not_failed (cache : CacheMap) (it : BatchItem)
    (h : ∃ s0, it.api = .returns (some s0)) :
    (process_single_translation cache it.text it.lang it.api).1.status ≠ "failed" := by
  rcases h with ⟨s0, hapi⟩
  rw [hapi]
  rcases translate_returns_some cache it.text it.lang s0 with ⟨t, ht⟩
  have hs : (process_single_translation cache it.text it.lang
        (.returns (some s0))).1.status = translation_status_of (some t) := by
    simp [process_single_translation, ht]
  rw [hs]
  unfold translation_status_of
  dsimp only
  by_cases hr : isRefusalString t = true
  · rw [if_pos hr]; decide
  · rw [if_neg hr]; decide

theorem single_translation_failed_of_raises (cache : CacheMap) (it : BatchItem)
    (hblank : isBlank it.text = false)
    (hmiss : cacheLookup cache (itemKey it) = none)
    (hraise : ∃ m, it.api = .raises m) :
    (process_single_translation cache it.text it.lang it.api).1.status = "failed" := by
  rcases hraise with ⟨m, hapi⟩
  unfold itemKey at hmiss
  have ht : (translate_review_text cache it.text it.lang it.api).result = none := by
    rw [hapi]
    simp [translate_review_text, hblank, hmiss]
  simp [process_single_translation, translation_status_of, ht]

theorem cacheLookup_append_single (cache : CacheMap) (k key t : String)
    (hk : cacheLookup cache k = none) (hne : k ≠ key) :
    cacheLookup (cache ++ [(key, t)]) k = none := by
  unfold cacheLookup at hk ⊢
  cases hfind : cache.find? (fun e => e.1 = k) with
  | some p => rw [hfind] at hk; simp at hk
  | none =>
    have hone : ([((key, t) : String × String)].find? (fun e => e.1 = k)) = none := by
      simp [List.find?, Ne.symm hne]
    rw [List.find?_append, hfind, hone]
    rfl

theorem translate_cacheAfter (cache : CacheMap) (text lang : String) (api : ApiCallResult) :
    (translate_review_text cache text lang api).cacheAfter = cache
    ∨ ∃ t, (translate_review_text cache text lang api).cacheAfter
        = cache ++ [(lang ++ ":" ++ text, t)] := by
  by_cases hb : isBlank text = true
  · exact Or.inl (by simp [translate_review_text, hb])
  · cases hc : cacheLookup cache (lang ++ ":" ++ text) with
    | some cached => exact Or.inl (by simp [translate_review_text, hb, hc])
    | none =>
      cases api with
      | raises m => exact Or.inl (by simp [translate_review_text, hb, hc])
      | returns o =>
        cases o with
        | none => exact Or.inl (by simp [translate_review_text, hb, hc])
        | some t =>
          by_cases hr : isRefusalString t = true
          · exact Or.inl (by simp [translate_review_text, hb, hc, hr])
          · exact Or.inr ⟨t, by simp [translate_review_text, hb, hc, hr]⟩

theorem single_translation_cache_preserves (cache : CacheMap) (it : BatchItem)
    (k : String) (hk : cacheLookup cache k = none) (hne : k ≠ itemKey it) :
    cacheLookup (process_single_translation cache it.text it.lang it.api).2 k = none := by
  have h2 : (process_single_translation cache it.text it.lang it.api).2
      = (translate_review_text cache it.text it.lang it.api).cacheAfter := rfl
  rw [h2]
  rcases translate_cacheAfter cache it.text it.lang it.api with hc | ⟨t, hc⟩
  · rw [hc]; exact hk
  · rw [hc]
    exact cacheLookup_append_single cache k (it.lang ++ ":" ++ it.text) t hk hne

theorem batch_statuses_terminal (items : List BatchItem) :
    ∀ cache : CacheMap, ∀ s ∈ (process_translation_batch cache items).1,
      s = "translated" ∨ s = "skipped" ∨ s = "failed" := by
  induction items with
  | nil => intro cache s hs; simp [process_translation_batch] at hs
  | cons it rest ih =>
    intro cache s hs
    simp only [process_translation_batch] at hs
    rcases List.mem_cons.mp hs with rfl | hmem
    · have h1 : (process_single_translation cache it.text it.lang it.api).1.status
          = translation_status_of
              (translate_review_text cache it.text it.lang it.api).result := rfl
      rw [h1]
      exact translation_status_terminal _
    · exact ih _ s hmem

theorem batch_statuses_length (items : List BatchItem) :
    ∀ cache : CacheMap, (process_translation_batch cache items).1.length = items.length := by
  induction items with
  | nil => intro cache; rfl
  | cons it rest ih =>
    intro cache
    simp only [process_translation_batch, List.length_cons]
    rw [ih]

theorem filter_notfail_cons (st : String) (l : List String)
    (h : st = "translated" ∨ st = "skipped") :
    (st :: l).filter (fun s => s ≠ "translated" ∧ s ≠ "skipped")
      = l.filter (fun s => s ≠ "translated" ∧ s ≠ "skipped") := by
  rcases h with rfl | rfl <;> rfl

theorem filter_fail_cons (l : List String) :
    ("failed" :: l).filter (fun s => s ≠ "translated" ∧ s ≠ "skipped")
      = "failed" :: l.filter (fun s => s ≠ "translated" ∧ s ≠ "skipped") := rfl

theorem batch_no_failures (items : List BatchItem) :
    ∀ cache : CacheMap, (∀ it ∈ items, ∃ s0, it.api = .returns (some s0)) →
      ((process_translation_batch cache items).1.filter
        (fun s => s ≠ "translated" ∧ s ≠ "skipped")).length = 0 := by
  induction items with
  | nil => intro cache _; rfl
  | cons it rest ih =>
    intro cache hok
    simp only [process_translation_batch]
    have hnf := single_translation_not_failed cache it (hok it (List.mem_cons_self it rest))
    have hterm : (process_single_translation cache it.text it.lang it.api).1.status
        = "translated"
        ∨ (process_single_translation cache it.text it.lang it.api).1.status
        = "skipped" := by
      have h1 : (process_single_translation cache it.text it.lang it.api).1.status
          = translation_status_of
              (translate_review_text cache it.text it.lang it.api).result := rfl
      rcases translation_status_terminal
          (translate_review_text cache it.text it.lang it.api).result with h | h | h
      · exact Or.inl (h1.trans h)
      · exact Or.inr (h1.trans h)
      · exact absurd (h1.trans h) hnf
    have hrest := ih (process_single_translation cache it.text it.lang it.api).2
      (fun x hx => hok x (List.mem_cons_of_mem it hx))
    rcases hterm with h | h
    · rw [h, filter_notfail_cons "translated" _ (Or.inl rfl)]
      exact hrest
    · rw [h, filter_notfail_cons "skipped" _ (Or.inr rfl)]
      exact hrest

theorem batch_one_failure :
    ∀ (pre : List BatchItem) (cache : CacheMap) (bad : BatchItem)
      (post : List BatchItem),
      (∀ it ∈ pre, ∃ s0, it.api = .returns (some s0)) →
      (∀ it ∈ post, ∃ s0, it.api = .returns (some s0)) →
      (∀ it ∈ pre, itemKey it ≠ itemKey bad) →
      (∃ m, bad.api = .raises m) →
      isBlank bad.text = false →
      cacheLookup cache (itemKey bad) = none →
      ((process_translation_batch cache (pre ++ bad :: post)).1.filter
        (fun s => s ≠ "translated" ∧ s ≠ "skipped")).length = 1 := by
  intro pre
  induction pre with
  | nil =>
    intro cache bad post _ hpost _ hraise hblank hmiss
    simp only [List.nil_append, process_translation_batch]
    have hfail := single_translation_failed_of_raises cache bad hblank hmiss hraise
    have hrest := batch_no_failures post
      (process_single_translation cache bad.text bad.lang bad.api).2 hpost
    rw [hfail, filter_fail_cons, List.length_cons, hrest]
  | cons p pre ih =>
    intro cache bad post hpre hpost hkeys hraise hblank hmiss
    simp only [List.cons_append, process_translation_batch]
    have hnf := single_translation_not_failed cache p
      (hpre p (List.mem_cons_self p pre))
    have hterm : (process_single_translation cache p.text p.lang p.api).1.status
        = "translated"
        ∨ (process_single_translation cache p.text p.lang p.api).1.status
        = "skipped" := by
      have h1 : (process_single_translation cache p.text p.lang p.api).1.status
          = translation_status_of
              (translate_review_text cache p.text p.lang p.api).result := rfl
      rcases translation_status_terminal
          (translate_review_text cache p.text p.lang p.api).result with h | h | h
      · exact Or.inl (h1.trans h)
      · exact Or.inr (h1.trans h)
      · exact absurd (h1.trans h) hnf
    have hmiss2 : cacheLookup (process_single_translation cache p.text p.lang p.api).2
        (itemKey bad) = none :=
      single_translation_cache_preserves cache p (itemKey bad) hmiss
        (fun he => hkeys p (List.mem_cons_self p pre) he.symm)
    have hrest := ih (process_single_translation cache p.text p.lang p.api).2 bad post
      (fun x hx => hpre x (List.mem_cons_of_mem p hx)) hpost
      (fun x hx => hkeys x (List.mem_cons_of_mem p hx)) hraise hblank hmiss2
    rcases hterm with h | h
    · rw [h, filter_notfail_cons "translated" _ (Or.inl rfl)]
      exact hrest
    · rw [h, filter_notfail_cons "skipped" _ (Or.inr rfl)]
      exact hrest

/-! ## Claim C8: partial-failure isolation in a batch -/

/-- C8.  Every item of a translation batch ends in a terminal status
(`'translated'`, `'skipped'` or `'failed'` — never left `'pending'`),
one status per item; and when exactly one item's external call raises
(the item is non-blank and uncached, the other items' calls all return
a string, and no earlier item shares the failing item's cache key),
the batch's aggregated counters report exactly one failure. -/
theorem c8_partial_failure :
    (∀ (cache : CacheMap) (items : List BatchItem),
        (∀ s ∈ (process_translation_batch cache items).1,
          s = "translated" ∨ s = "skipped" ∨ s = "failed")
        ∧ (process_translation_batch cache items).1.length = items.length)
    ∧ (∀ (cache : CacheMap) (pre : List BatchItem) (bad : BatchItem)
          (post : List BatchItem),
        (∀ it ∈ pre, ∃ s0, it.api = .returns (some s0)) →
        (∀ it ∈ post, ∃ s0, it.api = .returns (some s0)) →
        (∀ it ∈ pre, itemKey it ≠ itemKey bad) →
        (∃ m, bad.api = .raises m) →
        isBlank bad.text = false →
        cacheLookup cache (itemKey bad) = none →
          (batch_counts (process_translation_batch cache (pre ++ bad :: post)).1).2.2
            = 1) := by
  constructor
  · intro cache items
    exact ⟨batch_statuses_terminal items cache, batch_statuses_length items cache⟩
  · intro cache pre bad post hpre hpost hkeys hraise hblank hmiss
    exact batch_one_failure pre cache bad post hpre hpost hkeys hraise hblank hmiss

/-- C8, witness: a three-item batch whose middle item's call raises;
the counters report exactly one failure. -/
theorem c8_partial_failure_witness :
    (batch_counts (process_translation_batch []
      [⟨"r1", "texto uno", "spanish", .returns (some "text one")⟩,
       ⟨"r2", "texto dos", "spanish", .raises "APITimeoutError"⟩,
       ⟨"r3", "texto tres", "spanish", .returns (some "text three")⟩]).1).2.2 = 1 :=
  c8_partial_failure.2 []
    [⟨"r1", "texto uno", "spanish", .returns (some "text one")⟩]
    ⟨"r2", "texto dos", "spanish", .raises "APITimeoutError"⟩
    [⟨"r3", "texto tres", "spanish", .returns (some "text three")⟩]
    (by
      intro it hit
      rw [List.mem_singleton] at hit
      exact ⟨"text one", by rw [hit]⟩)
    (by
      intro it hit
      rw [List.mem_singleton] at hit
      exact ⟨"text three", by rw [hit]⟩)
    (by
      intro it hit
      rw [List.mem_singleton] at hit
      rw [hit]
      decide)
    ⟨"APITimeoutError", rfl⟩
    (by decide)
    rfl

/-! ## Claim C9: per-group error attribution in report generation -/

/-- C9.  The claim states the report's concurrent gather converts each
summary task's failure into *that same group's* error cell.  The code
records each language's `task_index` as `len(tasks) - 1` *before*
appending that language's task (src/src/reporting/excel_generator.py,
line 208 vs. 218, despite the comment "Map lang to its task index"),
so every language reads the previous task's result: with two languages
(english, french) and an overall task, where the english task fails
(its exception is delivered by the gather), english's cells receive
index `-1` — the *overall* summary — and french's cells receive index
`0` — the english task's error — while the healthy french summary is
shown nowhere. -/
theorem c9_report_misattribution :
    generate_report_summaries
      [⟨"english", true, "good game"⟩, ⟨"french", true, "bon jeu"⟩]
      "good game bon jeu"
      [.exn "RuntimeError in english task", .val (.summary "french summary"),
        .val (.summary "overall summary")]
    = ([("english", .summary "overall summary"),
        ("french", .errorCell "Task execution failed: RuntimeError in english task")],
        .summary "overall summary") := by
  decide

end SteamReviews
